import Mathlib

/-!
Verification of the idea-notes store and inbox projection.

The development shallowly embeds the state-management module of the
repository (the `IdeasProvider` context: `removeIdea`, `updateIdea`,
`togglePinned`, `toggleArchived`, the hydration normalization, and the
autosave gating) together with the inbox projection's search and sort
steps, and proves the specified properties about them.

Modelling conventions:
* A runtime idea object is a record whose optional keys (`isPinned`,
  `isArchived`, and the legacy `isOutside`) are `Option Bool`; `none`
  models an absent (or `undefined`) key, and reading a flag with the
  `?? false` fallback is `Option.getD · false`.
* Timestamps (`createdAt`, epoch milliseconds) are `Int`.
* JavaScript strings are Lean `String`s; character-level operations of
  the search normalization work on `String.data`.
-/

/-- The closed category enum `'App' | 'Content' | 'Random'`. -/
inductive IdeaCategory where
  | App
  | Content
  | Random
deriving DecidableEq, Repr

/-- The runtime shape of an idea object.  The declared TypeScript type has
`id`, `text`, `category`, `createdAt` and optional `isPinned`/`isArchived`;
objects hydrated from an older stored schema may additionally carry the
legacy `isOutside` key, which the object spreads used by every operation
preserve, so it is part of the runtime record. -/
structure Idea where
  id : String
  text : String
  category : IdeaCategory
  isPinned : Option Bool
  isArchived : Option Bool
  createdAt : Int
  isOutside : Option Bool
deriving DecidableEq, Repr

/-- The partial-update record accepted by `updateIdea`.  The TypeScript
parameter type declares optional `text`, `category`, `isPinned` and
`isArchived`; a plain JavaScript object passed at runtime can additionally
carry `id` and `createdAt` keys, which the spread `...updates` would copy,
so they are modelled too. -/
structure IdeaUpdates where
  text : Option String := none
  category : Option IdeaCategory := none
  isPinned : Option Bool := none
  isArchived : Option Bool := none
  id : Option String := none
  createdAt : Option Int := none
deriving DecidableEq, Repr

/-- `removeIdea`: `prev.filter((idea) => idea.id !== id)`. -/
def removeIdea (id : String) (ideas : List Idea) : List Idea :=
  ideas.filter (fun idea => idea.id != id)

/-- The merge performed by `updateIdea` on the matching entry:
`{ ...idea, ...updates, id: idea.id, createdAt: idea.createdAt }` — the
spread applies every key present in `updates`, after which `id` and
`createdAt` are explicitly restored from the original entry. -/
def mergeUpdates (u : IdeaUpdates) (idea : Idea) : Idea :=
  let merged : Idea :=
    { id := u.id.getD idea.id
      text := u.text.getD idea.text
      category := u.category.getD idea.category
      isPinned := match u.isPinned with
        | some b => some b
        | none => idea.isPinned
      isArchived := match u.isArchived with
        | some b => some b
        | none => idea.isArchived
      createdAt := u.createdAt.getD idea.createdAt
      isOutside := idea.isOutside }
  { merged with id := idea.id, createdAt := idea.createdAt }

/-- `updateIdea`: map over the collection, merging into the entry whose
`id` matches and leaving every other entry untouched. -/
def updateIdea (id : String) (u : IdeaUpdates) (ideas : List Idea) : List Idea :=
  ideas.map (fun idea => if idea.id = id then mergeUpdates u idea else idea)

/-- The per-entry effect of `togglePinned`:
`newPinnedState = !(idea.isPinned ?? false)`, then
`isPinned: newPinnedState, isArchived: newPinnedState ? false : idea.isArchived`
(with `id` and `createdAt` re-asserted, which the record update keeps). -/
def togglePinnedOne (idea : Idea) : Idea :=
  let newPinnedState := !(idea.isPinned.getD false)
  { idea with
      isPinned := some newPinnedState
      isArchived := if newPinnedState then some false else idea.isArchived }

/-- `togglePinned`: map over the collection, toggling the entry whose `id`
matches. -/
def togglePinned (id : String) (ideas : List Idea) : List Idea :=
  ideas.map (fun idea => if idea.id = id then togglePinnedOne idea else idea)

/-- The per-entry effect of `toggleArchived`:
`newArchivedState = !(idea.isArchived ?? false)`, then
`isArchived: newArchivedState, isPinned: newArchivedState ? false : idea.isPinned`. -/
def toggleArchivedOne (idea : Idea) : Idea :=
  let newArchivedState := !(idea.isArchived.getD false)
  { idea with
      isArchived := some newArchivedState
      isPinned := if newArchivedState then some false else idea.isPinned }

/-- `toggleArchived`: map over the collection, toggling the entry whose
`id` matches. -/
def toggleArchived (id : String) (ideas : List Idea) : List Idea :=
  ideas.map (fun idea => if idea.id = id then toggleArchivedOne idea else idea)

/-- An idea satisfies the pin/archive mutual-exclusion property when its
two flags (read with the `?? false` fallback) are not both `true`. -/
def mutexOK (idea : Idea) : Bool :=
  !(idea.isPinned.getD false && idea.isArchived.getD false)

/-- One element of a sequence of toggle calls: either `togglePinned id` or
`toggleArchived id`. -/
inductive ToggleOp where
  | pin (id : String)
  | archive (id : String)
deriving DecidableEq, Repr

/-- Apply a single toggle call to the collection. -/
def applyToggle (op : ToggleOp) (ideas : List Idea) : List Idea :=
  match op with
  | .pin id => togglePinned id ideas
  | .archive id => toggleArchived id ideas

/-- Apply a sequence of toggle calls, left to right. -/
def applyToggles (ops : List ToggleOp) (ideas : List Idea) : List Idea :=
  ops.foldl (fun acc op => applyToggle op acc) ideas

lemma mutexOK_togglePinnedOne (idea : Idea) : mutexOK (togglePinnedOne idea) = true := by
  unfold mutexOK togglePinnedOne
  cases h : idea.isPinned.getD false <;> simp [h]

lemma mutexOK_toggleArchivedOne (idea : Idea) : mutexOK (toggleArchivedOne idea) = true := by
  unfold mutexOK toggleArchivedOne
  cases h : idea.isArchived.getD false <;> simp [h]

lemma mutexOK_applyToggle (op : ToggleOp) (ideas : List Idea)
    (h : ∀ i ∈ ideas, mutexOK i = true) :
    ∀ i ∈ applyToggle op ideas, mutexOK i = true := by
  intro i hi
  cases op with
  | pin id =>
    simp only [applyToggle, togglePinned, List.mem_map] at hi
    obtain ⟨j, hj, rfl⟩ := hi
    by_cases hid : j.id = id
    · simp [hid, mutexOK_togglePinnedOne]
    · simpa [hid] using h j hj
  | archive id =>
    simp only [applyToggle, toggleArchived, List.mem_map] at hi
    obtain ⟨j, hj, rfl⟩ := hi
    by_cases hid : j.id = id
    · simp [hid, mutexOK_toggleArchivedOne]
    · simpa [hid] using h j hj

/-- C1: starting from any collection in which no idea has both `isPinned`
and `isArchived` true, any sequence of `togglePinned`/`toggleArchived`
calls (with arbitrary ids) yields a collection in which no idea has both
flags true. -/
theorem toggles_preserve_mutual_exclusion (ideas : List Idea) (ops : List ToggleOp)
    (h : ∀ i ∈ ideas, mutexOK i = true) :
    ∀ i ∈ applyToggles ops ideas, mutexOK i = true := by
  induction ops generalizing ideas with
  | nil => simpa [applyToggles] using h
  | cons op ops ih =>
    have step := mutexOK_applyToggle op ideas h
    simpa [applyToggles, List.foldl_cons] using ih (applyToggle op ideas) step

/-- A sample idea used by concrete witnesses. -/
def ideaA : Idea :=
  { id := "a", text := "Ship v1", category := .App,
    isPinned := some false, isArchived := some false,
    createdAt := 100, isOutside := none }

/-- Witness for C1: the concrete collection `[ideaA]` satisfies the
mutual-exclusion hypothesis, and the entry produced by the toggle sequence
pin "a", archive "a" still satisfies `mutexOK`. -/
theorem toggles_preserve_mutual_exclusion_witness :
    mutexOK { id := "a", text := "Ship v1", category := .App,
              isPinned := some false, isArchived := some true,
              createdAt := 100, isOutside := none } = true :=
  toggles_preserve_mutual_exclusion [ideaA] [ToggleOp.pin "a", ToggleOp.archive "a"]
    (by decide) _ (by decide)

lemma togglePinned_getElem (ideas : List Idea) (id : String) (n : Nat) (idea : Idea)
    (hn : ideas[n]? = some idea) (hid : idea.id = id) :
    (togglePinned id ideas)[n]? = some (togglePinnedOne idea) := by
  simp [togglePinned, List.getElem?_map, hn, hid]

lemma toggleArchived_getElem (ideas : List Idea) (id : String) (n : Nat) (idea : Idea)
    (hn : ideas[n]? = some idea) (hid : idea.id = id) :
    (toggleArchived id ideas)[n]? = some (toggleArchivedOne idea) := by
  simp [toggleArchived, List.getElem?_map, hn, hid]

/-- C2: for an entry present in the collection whose id matches the call,
`togglePinned` negates its `isPinned` (read with the `?? false` fallback);
when the new value is `true` it forces `isArchived` to `false`, and when
the new value is `false` (that is, the old value was `true`) it leaves
`isArchived` unchanged.  Symmetrically, `toggleArchived` negates
`isArchived`, forces `isPinned` to `false` exactly when the new
`isArchived` is `true`, and leaves `isPinned` unchanged when the new value
is `false`. -/
theorem toggle_ops_functional_spec (ideas : List Idea) (id : String) (n : Nat) (idea : Idea)
    (hn : ideas[n]? = some idea) (hid : idea.id = id) :
    ((togglePinned id ideas)[n]?.map Idea.isPinned
        = some (some (!(idea.isPinned.getD false)))
      ∧ (idea.isPinned.getD false = false →
          (togglePinned id ideas)[n]?.map Idea.isArchived = some (some false))
      ∧ (idea.isPinned.getD false = true →
          (togglePinned id ideas)[n]?.map Idea.isArchived = some idea.isArchived))
    ∧ ((toggleArchived id ideas)[n]?.map Idea.isArchived
        = some (some (!(idea.isArchived.getD false)))
      ∧ (idea.isArchived.getD false = false →
          (toggleArchived id ideas)[n]?.map Idea.isPinned = some (some false))
      ∧ (idea.isArchived.getD false = true →
          (toggleArchived id ideas)[n]?.map Idea.isPinned = some idea.isPinned)) := by
  have hp := togglePinned_getElem ideas id n idea hn hid
  have ha := toggleArchived_getElem ideas id n idea hn hid
  refine ⟨⟨?_, ?_, ?_⟩, ?_, ?_, ?_⟩
  · simp [hp, togglePinnedOne]
  · intro h
    simp [hp, togglePinnedOne, h]
  · intro h
    simp [hp, togglePinnedOne, h]
  · simp [ha, toggleArchivedOne]
  · intro h
    simp [ha, toggleArchivedOne, h]
  · intro h
    simp [ha, toggleArchivedOne, h]

/-- Witness for C2: toggling the pin of the concrete entry `ideaA`
(currently unpinned, unarchived) makes `isPinned = some true` and forces
`isArchived = some false`. -/
theorem toggle_ops_functional_spec_witness :
    (togglePinned "a" [ideaA])[0]?.map Idea.isPinned = some (some true)
    ∧ (togglePinned "a" [ideaA])[0]?.map Idea.isArchived = some (some false) :=
  ⟨by
    have h := (toggle_ops_functional_spec [ideaA] "a" 0 ideaA rfl rfl).1.1
    simpa using h,
   (toggle_ops_functional_spec [ideaA] "a" 0 ideaA rfl rfl).1.2.1 rfl⟩

/-- C3: `updateIdea` (for an arbitrary updates record, including one
carrying `id` or `createdAt` keys), `togglePinned` and `toggleArchived`
leave every entry's `id` and `createdAt` fields equal to their values
before the call. -/
theorem write_once_fields (ideas : List Idea) (id : String) (u : IdeaUpdates)
    (n : Nat) (idea : Idea) (hn : ideas[n]? = some idea) :
    (updateIdea id u ideas)[n]?.map Idea.id = some idea.id
    ∧ (updateIdea id u ideas)[n]?.map Idea.createdAt = some idea.createdAt
    ∧ (togglePinned id ideas)[n]?.map Idea.id = some idea.id
    ∧ (togglePinned id ideas)[n]?.map Idea.createdAt = some idea.createdAt
    ∧ (toggleArchived id ideas)[n]?.map Idea.id = some idea.id
    ∧ (toggleArchived id ideas)[n]?.map Idea.createdAt = some idea.createdAt := by
  refine ⟨?_, ?_, ?_, ?_, ?_, ?_⟩ <;>
    by_cases hid : idea.id = id <;>
      simp [updateIdea, togglePinned, toggleArchived, List.getElem?_map, hn, hid,
        mergeUpdates, togglePinnedOne, toggleArchivedOne]

/-- Witness for C3: updating the concrete entry `ideaA` with a record that
carries `id` and `createdAt` keys leaves its `id` and `createdAt`
unchanged. -/
theorem write_once_fields_witness :
    (updateIdea "a"
        { text := some "x", id := some "evil", createdAt := some 999 }
        [ideaA])[0]?.map Idea.id = some "a"
    ∧ (updateIdea "a"
        { text := some "x", id := some "evil", createdAt := some 999 }
        [ideaA])[0]?.map Idea.createdAt = some 100 :=
  ⟨(write_once_fields [ideaA] "a"
      { text := some "x", id := some "evil", createdAt := some 999 } 0 ideaA rfl).1,
   (write_once_fields [ideaA] "a"
      { text := some "x", id := some "evil", createdAt := some 999 } 0 ideaA rfl).2.1⟩

/-- C4: when no entry of the collection has the given id, `removeIdea`,
`updateIdea`, `togglePinned` and `toggleArchived` all return the
collection unchanged. -/
theorem noop_on_unknown_id (ideas : List Idea) (id : String) (u : IdeaUpdates)
    (h : ∀ i ∈ ideas, i.id ≠ id) :
    removeIdea id ideas = ideas
    ∧ updateIdea id u ideas = ideas
    ∧ togglePinned id ideas = ideas
    ∧ toggleArchived id ideas = ideas := by
  refine ⟨?_, ?_, ?_, ?_⟩
  · exact List.filter_eq_self.mpr (fun a ha => by simp [h a ha])
  all_goals
    have : ∀ f : Idea → Idea,
        ideas.map (fun idea => if idea.id = id then f idea else idea) = ideas := by
      intro f
      conv_rhs => rw [← List.map_id ideas]
      exact List.map_congr_left (fun a ha => by simp [h a ha])
    simpa [updateIdea, togglePinned, toggleArchived] using this _

/-- Witness for C4: the singleton collection `[ideaA]` (id "a") is
unchanged by all four operations called with the unknown id "zzz". -/
theorem noop_on_unknown_id_witness :
    removeIdea "zzz" [ideaA] = [ideaA]
    ∧ updateIdea "zzz" { isPinned := some true } [ideaA] = [ideaA]
    ∧ togglePinned "zzz" [ideaA] = [ideaA]
    ∧ toggleArchived "zzz" [ideaA] = [ideaA] :=
  noop_on_unknown_id [ideaA] "zzz" { isPinned := some true } (by decide)

/-- The per-entry normalization applied by `loadIdeas` to each element of
the stored array:
`{ ...idea, isPinned: idea.isPinned ?? false, isArchived: idea.isArchived ?? false }`.
All other keys (including the legacy `isOutside`) pass through the spread
unchanged. -/
def normalizeIdea (idea : Idea) : Idea :=
  { idea with
      isPinned := some (idea.isPinned.getD false)
      isArchived := some (idea.isArchived.getD false) }

/-- The hydration normalization of `loadIdeas`: `parsed.map(normalize)`
applied to the stored array. -/
def hydrateNormalize (stored : List Idea) : List Idea :=
  stored.map normalizeIdea

/-- C5: hydration performs schema migration on read — every stored entry
that lacks the `isPinned` key or the `isArchived` key is loaded with the
missing flag(s) set to `false`. -/
theorem hydration_defaults_missing_flags (stored : List Idea) (n : Nat) (idea : Idea)
    (hn : stored[n]? = some idea) :
    (idea.isPinned = none →
      (hydrateNormalize stored)[n]?.map Idea.isPinned = some (some false))
    ∧ (idea.isArchived = none →
      (hydrateNormalize stored)[n]?.map Idea.isArchived = some (some false)) := by
  constructor
  · intro h
    simp [hydrateNormalize, List.getElem?_map, hn, normalizeIdea, h]
  · intro h
    simp [hydrateNormalize, List.getElem?_map, hn, normalizeIdea, h]

/-- A legacy stored entry: no `isPinned`/`isArchived` keys, and the old
`isOutside` key present. -/
def legacyIdea : Idea :=
  { id := "b", text := "old note", category := .Random,
    isPinned := none, isArchived := none,
    createdAt := 42, isOutside := some true }

/-- Witness for C5: loading a stored collection whose entry has neither
flag key yields that entry with both flags defaulted to `false`. -/
theorem hydration_defaults_missing_flags_witness :
    (hydrateNormalize [legacyIdea])[0]?.map Idea.isPinned = some (some false)
    ∧ (hydrateNormalize [legacyIdea])[0]?.map Idea.isArchived = some (some false) :=
  ⟨(hydration_defaults_missing_flags [legacyIdea] 0 legacyIdea rfl).1 rfl,
   (hydration_defaults_missing_flags [legacyIdea] 0 legacyIdea rfl).2 rfl⟩

/-- C10: hydration's normalization changes nothing except the two
defaulted flags — the loaded collection has the same length with entries
in the same order, every entry keeps its `id`, `text`, `category`,
`createdAt` and legacy `isOutside` values, a flag key that is present
keeps its stored value, and only an absent flag key is filled in with
`false`. -/
theorem hydration_frame (stored : List Idea) (n : Nat) (idea : Idea)
    (hn : stored[n]? = some idea) :
    (hydrateNormalize stored).length = stored.length
    ∧ (hydrateNormalize stored)[n]?.map Idea.id = some idea.id
    ∧ (hydrateNormalize stored)[n]?.map Idea.text = some idea.text
    ∧ (hydrateNormalize stored)[n]?.map Idea.category = some idea.category
    ∧ (hydrateNormalize stored)[n]?.map Idea.createdAt = some idea.createdAt
    ∧ (hydrateNormalize stored)[n]?.map Idea.isOutside = some idea.isOutside
    ∧ (∀ b, idea.isPinned = some b →
        (hydrateNormalize stored)[n]?.map Idea.isPinned = some (some b))
    ∧ (∀ b, idea.isArchived = some b →
        (hydrateNormalize stored)[n]?.map Idea.isArchived = some (some b))
    ∧ (idea.isPinned = none →
        (hydrateNormalize stored)[n]?.map Idea.isPinned = some (some false))
    ∧ (idea.isArchived = none →
        (hydrateNormalize stored)[n]?.map Idea.isArchived = some (some false)) := by
  have key : (hydrateNormalize stored)[n]? = some (normalizeIdea idea) := by
    simp [hydrateNormalize, List.getElem?_map, hn]
  refine ⟨by simp [hydrateNormalize], ?_, ?_, ?_, ?_, ?_, ?_, ?_, ?_, ?_⟩
  · simp [key, normalizeIdea]
  · simp [key, normalizeIdea]
  · simp [key, normalizeIdea]
  · simp [key, normalizeIdea]
  · simp [key, normalizeIdea]
  · intro b hb
    simp [key, normalizeIdea, hb]
  · intro b hb
    simp [key, normalizeIdea, hb]
  · intro hb
    simp [key, normalizeIdea, hb]
  · intro hb
    simp [key, normalizeIdea, hb]

/-- Witness for C10: the legacy entry keeps its `id`, `createdAt` and
legacy `isOutside` value through hydration. -/
theorem hydration_frame_witness :
    (hydrateNormalize [legacyIdea])[0]?.map Idea.id = some "b"
    ∧ (hydrateNormalize [legacyIdea])[0]?.map Idea.createdAt = some 42
    ∧ (hydrateNormalize [legacyIdea])[0]?.map Idea.isOutside = some (some true) :=
  ⟨(hydration_frame [legacyIdea] 0 legacyIdea rfl).2.1,
   (hydration_frame [legacyIdea] 0 legacyIdea rfl).2.2.2.2.1,
   (hydration_frame [legacyIdea] 0 legacyIdea rfl).2.2.2.2.2.1⟩

/-- C8: `updateIdea` enforces no mutual exclusion — updating an existing
entry with `{ isPinned: true, isArchived: true }` leaves that entry with
both flags simultaneously `true`. -/
theorem updateIdea_can_set_both_flags (ideas : List Idea) (id : String) (n : Nat) (idea : Idea)
    (hn : ideas[n]? = some idea) (hid : idea.id = id) :
    (updateIdea id { isPinned := some true, isArchived := some true } ideas)[n]?.map
        Idea.isPinned = some (some true)
    ∧ (updateIdea id { isPinned := some true, isArchived := some true } ideas)[n]?.map
        Idea.isArchived = some (some true) := by
  constructor <;> simp [updateIdea, List.getElem?_map, hn, hid, mergeUpdates]

/-- Witness for C8: after the double-flag update, the concrete entry
`ideaA` has both `isPinned` and `isArchived` true, i.e. `mutexOK` fails. -/
theorem updateIdea_can_set_both_flags_witness :
    (updateIdea "a" { isPinned := some true, isArchived := some true }
        [ideaA])[0]?.map Idea.isPinned = some (some true)
    ∧ (updateIdea "a" { isPinned := some true, isArchived := some true }
        [ideaA])[0]?.map Idea.isArchived = some (some true) :=
  ⟨(updateIdea_can_set_both_flags [ideaA] "a" 0 ideaA rfl rfl).1,
   (updateIdea_can_set_both_flags [ideaA] "a" 0 ideaA rfl rfl).2⟩

/-- The character class of the JavaScript regular-expression `\s` (also
the class stripped by `String.prototype.trim`): ASCII whitespace and
line terminators, NBSP, the Unicode space separators, and the BOM. -/
def jsWhitespace (c : Char) : Bool :=
  c.val = 9 || c.val = 10 || c.val = 11 || c.val = 12 || c.val = 13
    || c.val = 32 || c.val = 160 || c.val = 0x1680
    || (0x2000 ≤ c.val && c.val ≤ 0x200a)
    || c.val = 0x2028 || c.val = 0x2029 || c.val = 0x202f
    || c.val = 0x205f || c.val = 0x3000 || c.val = 0xfeff

/-- Worker for `.replace(/\s+/g, ' ')`: the flag records whether the
previous character belonged to a whitespace run already emitted as a
single space. -/
def collapseWSAux : Bool → List Char → List Char
  | _, [] => []
  | prevWS, c :: rest =>
    if jsWhitespace c then
      if prevWS then collapseWSAux true rest
      else ' ' :: collapseWSAux true rest
    else c :: collapseWSAux false rest

/-- `.replace(/\s+/g, ' ')`: collapse every maximal whitespace run to a
single space. -/
def collapseWS (l : List Char) : List Char :=
  collapseWSAux false l

/-- `String.prototype.trim`: strip leading and trailing whitespace. -/
def trimWS (l : List Char) : List Char :=
  ((l.dropWhile jsWhitespace).reverse.dropWhile jsWhitespace).reverse

/-- `String.prototype.includes`: the needle occurs as a contiguous
substring of the haystack (true at some suffix's front, or the needle is
empty). -/
def includesList (needle : List Char) : List Char → Bool
  | [] => needle.isEmpty
  | c :: rest => needle.isPrefixOf (c :: rest) || includesList needle rest

/-- The normalized query of the search filter:
`searchQuery.trim().toLowerCase().replace(/\s+/g, ' ')`. -/
def normQuery (query : String) : List Char :=
  collapseWS ((trimWS query.data).map Char.toLower)

/-- The normalized entry text of the search filter:
`item.text.toLowerCase().replace(/\s+/g, ' ')` (no trim). -/
def normText (s : String) : List Char :=
  collapseWS (s.data.map Char.toLower)

/-- The search step of `visibleIdeas`: when the trimmed query is empty the
filter is skipped (`if (searchQuery.trim())` is falsy); otherwise keep the
entries whose normalized text contains the normalized query
(`normalizedText.includes(normalizedQuery)`). -/
def searchStep (query : String) (ideas : List Idea) : List Idea :=
  if trimWS query.data = [] then ideas
  else ideas.filter (fun item => includesList (normQuery query) (normText item.text))

/-- The concrete entry of the search-normalization scenario. -/
def milkIdea : Idea :=
  { id := "m", text := "please buy milk today", category := .Content,
    isPinned := some false, isArchived := some false,
    createdAt := 1, isOutside := none }

/-- C6: the text-search step keeps every entry when the query is empty or
whitespace-only, and otherwise keeps exactly the entries whose lowercased,
whitespace-collapsed text contains the trimmed, lowercased,
whitespace-collapsed query as a substring; concretely, the query
"Buy  milk" keeps the entry with text "please buy milk today" and the
query "milkshake" does not. -/
theorem search_step_spec (query : String) (ideas : List Idea) :
    (trimWS query.data = [] → searchStep query ideas = ideas)
    ∧ (trimWS query.data ≠ [] →
        searchStep query ideas =
          ideas.filter (fun item => includesList (normQuery query) (normText item.text)))
    ∧ searchStep "Buy  milk" [milkIdea] = [milkIdea]
    ∧ searchStep "milkshake" [milkIdea] = [] := by
  refine ⟨?_, ?_, ?_, ?_⟩
  · intro h
    simp [searchStep, h]
  · intro h
    simp [searchStep, h]
  · decide
  · decide

/-- Witness for C6: a whitespace-only query keeps the whole collection,
discharging the theorem's emptiness hypothesis at a concrete input. -/
theorem search_step_spec_witness :
    searchStep "   " [milkIdea] = [milkIdea] :=
  (search_step_spec "   " [milkIdea]).1 (by decide)

/-- The two values of the inbox sort toggle. -/
inductive SortOrder where
  | newest
  | oldest
deriving DecidableEq, Repr

/-- The comparator passed to `sort`:
`sortOrder === 'newest' ? b.createdAt - a.createdAt : a.createdAt - b.createdAt`. -/
def cmpIdeas (ord : SortOrder) (a b : Idea) : Int :=
  match ord with
  | .newest => b.createdAt - a.createdAt
  | .oldest => a.createdAt - b.createdAt

/-- `a` may precede `b` under the comparator (comparator value ≤ 0). -/
def cmpLe (ord : SortOrder) (a b : Idea) : Prop :=
  cmpIdeas ord a b ≤ 0

instance (ord : SortOrder) : DecidableRel (cmpLe ord) :=
  fun a b => inferInstanceAs (Decidable (cmpIdeas ord a b ≤ 0))

instance (ord : SortOrder) : IsTotal Idea (cmpLe ord) where
  total a b := by
    cases ord <;> simp only [cmpLe, cmpIdeas] <;> omega

instance (ord : SortOrder) : IsTrans Idea (cmpLe ord) where
  trans a b c := by
    cases ord <;> simp only [cmpLe, cmpIdeas] <;> omega

/-- The sort step of `visibleIdeas`: `[...filtered].sort(comparator)`.
`Array.prototype.sort` is specified to be stable, and a stable sort
for a comparator-induced total preorder is unique, so it is modelled as
insertion sort with respect to `cmpLe`. -/
def sortStep (ord : SortOrder) (l : List Idea) : List Idea :=
  List.insertionSort (cmpLe ord) l

lemma createdAt_ne_of_not_cmpLe {ord : SortOrder} {x y : Idea} (h : ¬ cmpLe ord x y) :
    y.createdAt ≠ x.createdAt := by
  cases ord <;> simp only [cmpLe, cmpIdeas] at h <;> omega

lemma filter_key_orderedInsert_mem (ord : SortOrder) (t : Int) (x : Idea) (l : List Idea)
    (hx : x.createdAt = t) :
    (List.orderedInsert (cmpLe ord) x l).filter (fun e => decide (e.createdAt = t))
      = x :: l.filter (fun e => decide (e.createdAt = t)) := by
  induction l with
  | nil => simp [List.orderedInsert, hx]
  | cons y ys ih =>
    by_cases h : cmpLe ord x y
    · simp [List.orderedInsert, h, hx]
    · have hne : ¬ y.createdAt = t := hx ▸ createdAt_ne_of_not_cmpLe h
      simp [List.orderedInsert, h, hne, ih]

lemma filter_key_orderedInsert_ne (ord : SortOrder) (t : Int) (x : Idea) (l : List Idea)
    (hx : ¬ x.createdAt = t) :
    (List.orderedInsert (cmpLe ord) x l).filter (fun e => decide (e.createdAt = t))
      = l.filter (fun e => decide (e.createdAt = t)) := by
  induction l with
  | nil => simp [List.orderedInsert, hx]
  | cons y ys ih =>
    by_cases h : cmpLe ord x y
    · simp [List.orderedInsert, h, hx]
    · simp only [List.orderedInsert, if_neg h, List.filter_cons, ih]

lemma filter_key_sortStep (ord : SortOrder) (t : Int) (l : List Idea) :
    (sortStep ord l).filter (fun e => decide (e.createdAt = t))
      = l.filter (fun e => decide (e.createdAt = t)) := by
  induction l with
  | nil => rfl
  | cons a l ih =>
    show (List.orderedInsert (cmpLe ord) a (List.insertionSort (cmpLe ord) l)).filter
        (fun e => decide (e.createdAt = t)) = _
    by_cases ha : a.createdAt = t
    · rw [filter_key_orderedInsert_mem ord t a _ ha]
      simp only [sortStep] at ih
      rw [ih]
      simp [ha]
    · rw [filter_key_orderedInsert_ne ord t a _ ha]
      simp only [sortStep] at ih
      simp [ha, ih]

/-- Sort-stability scenario entry A (createdAt 100). -/
def ideaS1 : Idea :=
  { id := "A", text := "A", category := .App,
    isPinned := some false, isArchived := some false,
    createdAt := 100, isOutside := none }

/-- Sort-stability scenario entry B (createdAt 100). -/
def ideaS2 : Idea :=
  { id := "B", text := "B", category := .App,
    isPinned := some false, isArchived := some false,
    createdAt := 100, isOutside := none }

/-- Sort-stability scenario entry C (createdAt 200). -/
def ideaS3 : Idea :=
  { id := "C", text := "C", category := .App,
    isPinned := some false, isArchived := some false,
    createdAt := 200, isOutside := none }

/-- C7: the sort step orders entries by `createdAt` — descending for
"newest", ascending for "oldest" — and is stable: for every timestamp the
subsequence of entries carrying that timestamp is exactly the input's
subsequence, in input order; concretely, for A(100), B(100), C(200)
inserted in order A,B,C, "newest" yields [C,A,B] and "oldest" yields
[A,B,C]. -/
theorem sort_step_spec (l : List Idea) :
    List.Pairwise (fun a b => b.createdAt ≤ a.createdAt) (sortStep .newest l)
    ∧ List.Pairwise (fun a b => a.createdAt ≤ b.createdAt) (sortStep .oldest l)
    ∧ (∀ (ord : SortOrder) (t : Int),
        (sortStep ord l).filter (fun e => decide (e.createdAt = t))
          = l.filter (fun e => decide (e.createdAt = t)))
    ∧ sortStep .newest [ideaS1, ideaS2, ideaS3] = [ideaS3, ideaS1, ideaS2]
    ∧ sortStep .oldest [ideaS1, ideaS2, ideaS3] = [ideaS1, ideaS2, ideaS3] := by
  refine ⟨?_, ?_, fun ord t => filter_key_sortStep ord t l, by decide, by decide⟩
  · have h := List.sorted_insertionSort (cmpLe .newest) l
    exact h.imp (fun hab => by simpa [cmpLe, cmpIdeas] using hab)
  · have h := List.sorted_insertionSort (cmpLe .oldest) l
    exact h.imp (fun hab => by simpa [cmpLe, cmpIdeas] using hab)

/-- The outcome of the hydration read, after `JSON.parse` and the
`Array.isArray` check: absent, corrupt, or non-array content leaves the
collection untouched (empty at startup); a parsed array is normalized and
installed. -/
inductive HydrationResult where
  | absent
  | stored (arr : List Idea)

/-- The store's state: the collection plus the `hasHydratedRef` flag. -/
structure StoreState where
  ideas : List Idea
  hydrated : Bool

/-- An event on the store's single logic thread: the hydration attempt
completing (its `finally` block sets `hasHydratedRef` in every outcome),
or a user mutation dispatching `setIdeas` with some collection
transformation. -/
inductive StoreEvent where
  | hydrationDone (res : HydrationResult)
  | mutate (f : List Idea → List Idea)

/-- Whether an event is the hydration completion. -/
def StoreEvent.isHydration : StoreEvent → Bool
  | .hydrationDone _ => true
  | .mutate _ => false

/-- The autosave effect, re-run after the collection changes: it returns
early when `hasHydratedRef` is still unset, and otherwise serializes the
full collection to the single fixed storage key (the written value is
modelled as the collection itself; `JSON.stringify` is injective on it). -/
def autosaveEffect (s : StoreState) : Option (List Idea) :=
  if s.hydrated then some s.ideas else none

/-- One step of the store: apply the event, then run the autosave effect
if the event dispatched `setIdeas`.  `hydrationDone .absent` dispatches no
`setIdeas` (the collection reference is unchanged), so the effect does not
re-run; the two other events always produce a fresh collection value. -/
def stepStore (s : StoreState) (e : StoreEvent) : StoreState × Option (List Idea) :=
  match e with
  | .hydrationDone .absent => ({ s with hydrated := true }, none)
  | .hydrationDone (.stored arr) =>
    let s2 : StoreState := { ideas := hydrateNormalize arr, hydrated := true }
    (s2, autosaveEffect s2)
  | .mutate f =>
    let s2 : StoreState := { ideas := f s.ideas, hydrated := s.hydrated }
    (s2, autosaveEffect s2)

/-- The sequence of durable writes produced by processing the events in
order. -/
def runWrites (s : StoreState) : List StoreEvent → List (List Idea)
  | [] => []
  | e :: es => (stepStore s e).2.toList ++ runWrites (stepStore s e).1 es

/-- C9: writes are gated on hydration — a step only writes when its
post-state is hydrated, a mutation in an unhydrated state writes nothing,
a run starting unhydrated that contains no hydration completion writes
nothing at all, and once hydrated every mutation writes the full new
collection to the storage slot. -/
theorem autosave_gated_by_hydration :
    (∀ (s : StoreState) (e : StoreEvent),
        (stepStore s e).2.isSome = true → (stepStore s e).1.hydrated = true)
    ∧ (∀ (s : StoreState) (f : List Idea → List Idea),
        s.hydrated = false → (stepStore s (.mutate f)).2 = none)
    ∧ (∀ (es : List StoreEvent) (l : List Idea),
        (∀ e ∈ es, e.isHydration = false) → runWrites ⟨l, false⟩ es = [])
    ∧ (∀ (s : StoreState) (f : List Idea → List Idea),
        s.hydrated = true →
          stepStore s (.mutate f) = (⟨f s.ideas, true⟩, some (f s.ideas))) := by
  refine ⟨?_, ?_, ?_, ?_⟩
  · intro s e h
    match e with
    | .hydrationDone .absent => rfl
    | .hydrationDone (.stored arr) => rfl
    | .mutate f =>
      by_cases hs : s.hydrated
      · simp [stepStore, hs]
      · simp [stepStore, autosaveEffect, hs] at h
  · intro s f hs
    simp [stepStore, autosaveEffect, hs]
  · intro es
    induction es with
    | nil => intro l _; rfl
    | cons e es ih =>
      intro l h
      match e with
      | .hydrationDone res =>
        have := h _ (List.mem_cons_self _ _)
        simp [StoreEvent.isHydration] at this
      | .mutate f =>
        have tail : ∀ x ∈ es, x.isHydration = false :=
          fun x hx => h x (List.mem_cons_of_mem _ hx)
        simpa [runWrites, stepStore, autosaveEffect] using ih (f l) tail
  · intro s f hs
    simp [stepStore, autosaveEffect, hs]

/-- Witness for C9: starting unhydrated with an empty collection, a
mutation event produces no durable write. -/
theorem autosave_gated_by_hydration_witness :
    runWrites ⟨[], false⟩ [StoreEvent.mutate (fun l => ideaA :: l)] = [] :=
  autosave_gated_by_hydration.2.2.1 [StoreEvent.mutate (fun l => ideaA :: l)] []
    (by
      intro e he
      simp only [List.mem_singleton] at he
      subst he
      rfl)

/-- Witness for C7: the concrete stability scenario extracted from the
theorem — "newest" on A(100), B(100), C(200) yields [C, A, B]. -/
theorem sort_step_spec_witness :
    sortStep .newest [ideaS1, ideaS2, ideaS3] = [ideaS3, ideaS1, ideaS2] :=
  (sort_step_spec []).2.2.2.1
